import Mathlib

/-!
Verification of `src/include/nana/filesystem/filesystem.hpp` (nana::filesystem).

The file shallowly embeds the `directory_iterator` of the header together with
the value types it produces.  The native enumeration primitive is modelled by
its observable content: a successful open yields the list of raw entries the
OS cursor will report, in order (`Option (List find_data)`, `none` standing
for an open failure such as a missing directory or denied permission).  The
iterator state mirrors the data members of the C++ class: the `end_` flag, the
`handle_` pointer together with the position of the OS cursor (modelled as the
list of raw entries not yet consumed; `none` models a null handle), and the
current `value_`.  Reference counting of `find_ptr_` concerns only resource
release and is not needed by any property proved here.

The sequence logic (`_m_prepare`, `_m_read`, `_m_ignore`, `equal`,
`operator++`) is common to both platform branches of the header and is
embedded once, following the Windows branch, the one that compiles.  The
Linux-only metadata resolution (the `stat` call of `_m_prepare` lines 227-238
and of `_m_read` lines 283-290) is embedded separately below as
`linux_prepare_entry` and `linux_read_stat_fail`.
-/

/-- Lexical location value (`class path`, lines 95-112).  Only the stored
text matters to the properties proved here. -/
structure path where
  text_ : String
deriving DecidableEq

/-- Modelled from the spec: `path::name` is only declared in the header
(line 105); its definition is not part of this source tree.  Spec section 4.1:
returns the final component of the path, the substring after the last
separator, or the whole text if no separator is present. -/
def path.name (p : path) : String :=
  ⟨p.text_.data.foldl (fun acc c => if c = '/' || c = '\\' then [] else acc ++ [c]) []⟩

/-- `struct directory_entry` (lines 114-127): stored path, size and
directory flag.  The C++ `unsigned long size` is modelled as `Nat` (the
values stored by the iterator are sizes reported by the OS, all
non-negative, and no arithmetic is performed on them). -/
structure directory_entry where
  m_path : path
  size : Nat
  directory : Bool
deriving DecidableEq

/-- Modelled from the spec: the default constructor of `directory_entry` is
declared (line 120) but defined outside this source tree.  Spec section 4.2:
default means empty path, size 0, not-directory. -/
def directory_entry.init : directory_entry := ⟨⟨""⟩, 0, false⟩

/-- One raw entry as reported by the native cursor (`WIN32_FIND_DATA`):
its name, its `FILE_ATTRIBUTE_DIRECTORY` bit and its `nFileSizeLow`. -/
structure find_data where
  cFileName : String
  dwFileAttributes_directory : Bool
  nFileSizeLow : Nat
deriving DecidableEq

/-- State of a `directory_iterator` (data members, lines 312-324): the
`end_` flag, the handle together with the OS cursor content it points at
(`none` models the null handle), and the current `value_`. -/
structure directory_iterator where
  end_ : Bool
  handle_ : Option (List find_data)
  value_ : directory_entry
deriving DecidableEq

/-- `directory_iterator()` (line 137): `end_ = true`, `handle_ = nullptr`,
`value_` default-constructed. -/
def directory_iterator.init : directory_iterator := ⟨true, none, directory_entry.init⟩

/-- The loop of `_m_ignore` (lines 167-173) on the character list of the
name: advance past leading `.` characters and test for the terminator. -/
def ignore_chars : List Char → Bool
  | [] => true
  | c :: p => if c = '.' then ignore_chars p else false

/-- `_m_ignore` (lines 167-173): true iff the name consists solely of `.`
characters (vacuously true for the empty name). -/
def directory_iterator._m_ignore (s : String) : Bool :=
  ignore_chars s.data

/-- Construction of `value_` from a raw entry (lines 202-204 and 264-266):
`value_type(wfd_.cFileName, FILE_ATTRIBUTE_DIRECTORY bit, wfd_.nFileSizeLow)`.
The `value_type` constructor (line 121) takes `(filename, is_directory, size)`. -/
def entry_of_find_data (r : find_data) : directory_entry :=
  ⟨⟨r.cFileName⟩, r.nFileSizeLow, r.dwFileAttributes_directory⟩

/-- The raw-entry pull loop shared by `_m_prepare` (lines 192-200, 217-225)
and `_m_read` (lines 254-263, 271-282): consume entries from the cursor while
`_m_ignore` accepts their names; return the first surviving raw entry and the
remaining cursor, or `none` when the cursor is exhausted first. -/
def read_qualifying : List find_data → Option (find_data × List find_data)
  | [] => none
  | r :: rs => if directory_iterator._m_ignore r.cFileName then read_qualifying rs else some (r, rs)

/-- `directory_iterator(file_path)` (lines 139-143) followed by `_m_prepare`
(lines 175-247), over the open result.  `none`: the native open failed
(`FindFirstFile` returned `INVALID_HANDLE_VALUE` / `opendir` returned null):
`end_` is set and no handle is stored.  Otherwise the skip loop runs on the
raw entries; if it exhausts them the native handle is closed and `end_` set
(`handle_` stays null), else the first qualifying entry becomes `value_` and
the handle is stored. -/
def directory_iterator._m_prepare (openRes : Option (List find_data)) : directory_iterator :=
  match openRes with
  | none => ⟨true, none, directory_entry.init⟩
  | some raws =>
    match read_qualifying raws with
    | none => ⟨true, none, directory_entry.init⟩
    | some (r, rest) => ⟨false, some rest, entry_of_find_data r⟩

/-- `_m_read` (lines 249-295): a null `handle_` does nothing; otherwise pull
the next raw entry and run the skip loop.  Exhaustion (the first pull failing,
lines 268-269, or the skip loop running out, lines 256-263) sets `end_` and
leaves `value_` untouched, with the cursor consumed; a surviving entry
replaces `value_`.  `end_` is never assigned `false` here. -/
def directory_iterator._m_read (it : directory_iterator) : directory_iterator :=
  match it.handle_ with
  | none => it
  | some cursor =>
    match read_qualifying cursor with
    | none => { it with end_ := true, handle_ := some [] }
    | some (r, rest) => { it with value_ := entry_of_find_data r, handle_ := some rest }

/-- `operator++()` (lines 151-152): `_m_read(); return *this`. -/
def directory_iterator.preinc (it : directory_iterator) : directory_iterator :=
  directory_iterator._m_read it

/-- `operator++(int)` (lines 154-159): `tmp = *this; _m_read(); return tmp`.
The first component is the returned value, the second the new state of
`*this`. -/
def directory_iterator.postinc (it : directory_iterator) : directory_iterator × directory_iterator :=
  let tmp := it
  (tmp, directory_iterator._m_read it)

/-- `equal` (lines 161-165), also the body of `operator==` (lines 328-331):
`if (end_ && (end_ == x.end_)) return true; return value_.path().name() == x.value_.path().name();`. -/
def directory_iterator.equal (x y : directory_iterator) : Bool :=
  if x.end_ && (x.end_ == y.end_) then true
  else x.value_.m_path.name == y.value_.m_path.name

/-- `n` successive calls of `_m_read` (what `n` increments perform on the
iterator state). -/
def directory_iterator.advances : directory_iterator → Nat → directory_iterator
  | it, 0 => it
  | it, n + 1 => (directory_iterator._m_read it).advances n

/-- Number of qualifying raw entries of a cursor: those whose name the skip
filter `_m_ignore` does not accept (spec glossary: qualifying entry). -/
def qcount (l : List find_data) : Nat :=
  l.countP (fun r => !(directory_iterator._m_ignore r.cFileName))

/-- `struct stat` as consumed by the Linux branch (lines 227-231): the
`st_size` field and the `S_ISDIR` classification of `st_mode`. -/
structure stat_t where
  st_size : Nat
  S_ISDIR_mode : Bool
deriving DecidableEq

/-- The Linux metadata resolution of `_m_prepare` (lines 227-238): `stat` the
joined path; on success `value_ = value_type(dnt->d_name, S_ISDIR(st_mode), st_size)`;
on failure assign the name, `size = 0`, `directory = false`.  (The failure
branch of the source writes `value_.name`, a member `directory_entry` does not
have; the assignment is embedded as setting the stored path, its evident
intent.) -/
def linux_prepare_entry (dname : String) (statRes : Option stat_t) : directory_entry :=
  match statRes with
  | some fst => ⟨⟨dname⟩, fst.st_size, fst.S_ISDIR_mode⟩
  | none => ⟨⟨dname⟩, 0, false⟩

/-- The `stat`-failure branch of the Linux `_m_read` (lines 288-289): only
`value_.name = nana::charset(dnt->d_name)` is executed; `size` and
`directory` keep the values of the previous entry.  (As in `_m_prepare`, the
member `name` does not exist on `directory_entry`; moreover the success
branch of this Linux code, lines 285-287, reads `wfd_`, a member that only
exists in the Windows build, so the branch as written does not compile.) -/
def linux_read_stat_fail (prev : directory_entry) (dname : String) : directory_entry :=
  { prev with m_path := ⟨dname⟩ }

lemma ignore_chars_eq_all (l : List Char) :
    ignore_chars l = l.all (fun c => c == '.') := by
  induction l with
  | nil => rfl
  | cons c p ih =>
    by_cases h : c = '.'
    · simp [ignore_chars, h, ih]
    · simp [ignore_chars, h]

lemma qcount_nil : qcount [] = 0 := rfl

lemma qcount_cons (a : find_data) (l : List find_data) :
    qcount (a :: l)
      = qcount l + (if directory_iterator._m_ignore a.cFileName then 0 else 1) := by
  cases h : directory_iterator._m_ignore a.cFileName <;>
    simp [qcount, List.countP_cons, h]

lemma read_qualifying_eq_none_iff (l : List find_data) :
    read_qualifying l = none ↔ qcount l = 0 := by
  induction l with
  | nil => simp [read_qualifying, qcount_nil]
  | cons a as ih =>
    cases h : directory_iterator._m_ignore a.cFileName
    · simp [read_qualifying, h, qcount_cons]
    · simp [read_qualifying, h, qcount_cons, ih]

lemma read_qualifying_eq_some (l : List find_data) (r : find_data) (rest : List find_data)
    (h : read_qualifying l = some (r, rest)) :
    directory_iterator._m_ignore r.cFileName = false ∧ qcount l = qcount rest + 1 := by
  induction l with
  | nil => simp [read_qualifying] at h
  | cons a as ih =>
    cases ha : directory_iterator._m_ignore a.cFileName
    · rw [read_qualifying] at h
      simp [ha] at h
      obtain ⟨rfl, rfl⟩ := h
      exact ⟨ha, by simp [qcount_cons, ha]⟩
    · rw [read_qualifying] at h
      simp [ha] at h
      obtain ⟨h1, h2⟩ := ih h
      exact ⟨h1, by simp [qcount_cons, ha, h2]⟩

lemma _m_read_end_of_end (it : directory_iterator) (h : it.end_ = true) :
    (directory_iterator._m_read it).end_ = true := by
  cases hh : it.handle_ with
  | none => simp [directory_iterator._m_read, hh, h]
  | some cursor =>
    cases hq : read_qualifying cursor with
    | none => simp [directory_iterator._m_read, hh, hq]
    | some pr =>
      obtain ⟨r, rest⟩ := pr
      simp [directory_iterator._m_read, hh, hq, h]

lemma advances_succ (it : directory_iterator) (n : Nat) :
    it.advances (n + 1) = (directory_iterator._m_read it).advances n := rfl

lemma advances_end_of_end (it : directory_iterator) (n : Nat) (h : it.end_ = true) :
    (it.advances n).end_ = true := by
  induction n generalizing it with
  | zero => simpa [directory_iterator.advances] using h
  | succ n ih =>
    rw [advances_succ]
    exact ih _ (_m_read_end_of_end it h)

lemma advances_live_iff (i : Nat) :
    ∀ (it : directory_iterator) (c : List find_data),
      it.end_ = false → it.handle_ = some c →
      ((it.advances i).end_ = false ↔ i ≤ qcount c) := by
  induction i with
  | zero =>
    intro it c hl _
    simp [directory_iterator.advances, hl]
  | succ i ih =>
    intro it c hl hh
    rw [advances_succ]
    cases hq : read_qualifying c with
    | none =>
      have hc : qcount c = 0 := (read_qualifying_eq_none_iff c).mp hq
      have hread : directory_iterator._m_read it
          = { it with end_ := true, handle_ := some [] } := by
        simp [directory_iterator._m_read, hh, hq]
      rw [hread]
      have hend := advances_end_of_end { it with end_ := true, handle_ := some [] } i rfl
      simp [hend, hc]
    | some pr =>
      obtain ⟨r, rest⟩ := pr
      obtain ⟨-, hcount⟩ := read_qualifying_eq_some c r rest hq
      have hread : directory_iterator._m_read it
          = { it with value_ := entry_of_find_data r, handle_ := some rest } := by
        simp [directory_iterator._m_read, hh, hq]
      rw [hread, ih { it with value_ := entry_of_find_data r, handle_ := some rest } rest
        (by simpa using hl) rfl, hcount]
      omega

/-- Invariant tying a live iterator to its current entry: the stored name was
accepted past the skip filter. -/
def live_value_ok (it : directory_iterator) : Prop :=
  it.end_ = false → directory_iterator._m_ignore it.value_.m_path.text_ = false

lemma live_value_ok_read (it : directory_iterator) (h : live_value_ok it) :
    live_value_ok (directory_iterator._m_read it) := by
  intro hlive
  cases hh : it.handle_ with
  | none =>
    have heq : directory_iterator._m_read it = it := by
      simp [directory_iterator._m_read, hh]
    rw [heq] at hlive ⊢
    exact h hlive
  | some cursor =>
    cases hq : read_qualifying cursor with
    | none =>
      have heq : directory_iterator._m_read it
          = { it with end_ := true, handle_ := some [] } := by
        simp [directory_iterator._m_read, hh, hq]
      rw [heq] at hlive
      simp at hlive
    | some pr =>
      obtain ⟨r, rest⟩ := pr
      obtain ⟨hig, -⟩ := read_qualifying_eq_some cursor r rest hq
      have heq : directory_iterator._m_read it
          = { it with value_ := entry_of_find_data r, handle_ := some rest } := by
        simp [directory_iterator._m_read, hh, hq]
      rw [heq]
      simpa [entry_of_find_data] using hig

lemma live_value_ok_advances (it : directory_iterator) (h : live_value_ok it) (n : Nat) :
    live_value_ok (it.advances n) := by
  induction n generalizing it with
  | zero => exact h
  | succ n ih =>
    rw [advances_succ]
    exact ih _ (live_value_ok_read it h)

lemma live_value_ok_prepare (openRes : Option (List find_data)) :
    live_value_ok (directory_iterator._m_prepare openRes) := by
  intro hlive
  cases openRes with
  | none => simp [directory_iterator._m_prepare] at hlive
  | some raws =>
    cases hq : read_qualifying raws with
    | none => simp [directory_iterator._m_prepare, hq] at hlive
    | some pr =>
      obtain ⟨r, rest⟩ := pr
      obtain ⟨hig, -⟩ := read_qualifying_eq_some raws r rest hq
      simpa [directory_iterator._m_prepare, hq, entry_of_find_data] using hig

/-- Claim C1 (counterexample to the claim as stated): after exhausting a
one-entry directory the iterator is at end but retains the last entry in
`value_`; it compares equal to a live iterator whose current entry has the
same name, although exactly one of the two is at end — `equal` falls through
to the name comparison whenever the two end flags are not both set. -/
theorem equal_mixed_end_counterexample :
    directory_iterator.equal
        (directory_iterator._m_read (directory_iterator._m_prepare (some [⟨"a", false, 10⟩])))
        (directory_iterator._m_prepare (some [⟨"a", false, 10⟩])) = true ∧
      ¬ (((directory_iterator._m_read
              (directory_iterator._m_prepare (some [⟨"a", false, 10⟩]))).end_ = true ∧
            (directory_iterator._m_prepare (some [⟨"a", false, 10⟩])).end_ = true) ∨
          ((directory_iterator._m_read
              (directory_iterator._m_prepare (some [⟨"a", false, 10⟩]))).end_ = false ∧
            (directory_iterator._m_prepare (some [⟨"a", false, 10⟩])).end_ = false ∧
            (directory_iterator._m_read
              (directory_iterator._m_prepare (some [⟨"a", false, 10⟩]))).value_.m_path.name
              = (directory_iterator._m_prepare
                  (some [⟨"a", false, 10⟩])).value_.m_path.name)) := by
  decide

/-- Claim C1 (amended): two iterators compare equal iff both are at end, or
the names of their stored current entries compare equal as text — the name
branch does not require the end flags to agree, so an at-end iterator that
retains its last entry can compare equal to a live one. -/
theorem equal_iff_both_end_or_name_eq (x y : directory_iterator) :
    directory_iterator.equal x y = true ↔
      ((x.end_ = true ∧ y.end_ = true) ∨ x.value_.m_path.name = y.value_.m_path.name) := by
  unfold directory_iterator.equal
  cases hx : x.end_ <;> cases hy : y.end_ <;> simp [hx, hy]

/-- Claim C2 (confirmed): when the native open fails the constructed iterator
is at end with no handle stored, its state is identical to the one built over
a listing whose raw entries are all skipped (an empty directory lists only
dot entries), and it compares equal to the default-constructed end
sentinel. -/
theorem open_failure_constructs_end (raws : List find_data) (h : qcount raws = 0) :
    (directory_iterator._m_prepare none).end_ = true ∧
      (directory_iterator._m_prepare none).handle_ = none ∧
      directory_iterator._m_prepare (some raws) = directory_iterator._m_prepare none ∧
      directory_iterator.equal (directory_iterator._m_prepare none)
        directory_iterator.init = true := by
  refine ⟨rfl, rfl, ?_, rfl⟩
  have hq : read_qualifying raws = none := (read_qualifying_eq_none_iff raws).mpr h
  simp [directory_iterator._m_prepare, hq]

theorem open_failure_constructs_end_witness :
    qcount [(⟨".", false, 0⟩ : find_data), ⟨"..", true, 0⟩] = 0 ∧
      directory_iterator._m_prepare (some [⟨".", false, 0⟩, ⟨"..", true, 0⟩])
        = directory_iterator._m_prepare none :=
  ⟨by decide,
    (open_failure_constructs_end [⟨".", false, 0⟩, ⟨"..", true, 0⟩] (by decide)).2.2.1⟩

/-- Claim C3 (confirmed): at construction and after any number of advances, a
live iterator never holds an entry whose name consists solely of `.`
characters (`.`, `..`, `...`, ...); such raw entries are consumed by the
skip loop and never surface. -/
theorem dot_only_names_never_surface (openRes : Option (List find_data)) (n : Nat)
    (h : ((directory_iterator._m_prepare openRes).advances n).end_ = false) :
    ((directory_iterator._m_prepare openRes).advances n).value_.m_path.text_.data.all
        (fun c => c == '.') = false := by
  have hv := live_value_ok_advances _ (live_value_ok_prepare openRes) n h
  rw [directory_iterator._m_ignore, ignore_chars_eq_all] at hv
  exact hv

theorem dot_only_names_never_surface_witness :
    ((directory_iterator._m_prepare
        (some [⟨"..", true, 0⟩, ⟨"a", false, 10⟩])).advances 0).end_ = false ∧
      ((directory_iterator._m_prepare
          (some [⟨"..", true, 0⟩, ⟨"a", false, 10⟩])).advances 0).value_.m_path.text_.data.all
        (fun c => c == '.') = false :=
  ⟨by decide,
    dot_only_names_never_surface (some [⟨"..", true, 0⟩, ⟨"a", false, 10⟩]) 0 (by decide)⟩

/-- Claim C4 (confirmed): over a listing with exactly `k ≥ 1` qualifying
entries the constructed iterator is live, remains live after each of the
first `k - 1` advances, and reaches the end state exactly on the `k`-th
advance. -/
theorem advances_reach_end_at_count (raws : List find_data) (k : Nat)
    (hk : qcount raws = k) (h1 : 1 ≤ k) :
    (directory_iterator._m_prepare (some raws)).end_ = false ∧
      (∀ i, i < k →
        ((directory_iterator._m_prepare (some raws)).advances i).end_ = false) ∧
      ((directory_iterator._m_prepare (some raws)).advances k).end_ = true := by
  cases hq : read_qualifying raws with
  | none =>
    have h0 := (read_qualifying_eq_none_iff raws).mp hq
    omega
  | some pr =>
    obtain ⟨r, rest⟩ := pr
    obtain ⟨-, hcount⟩ := read_qualifying_eq_some raws r rest hq
    have hprep : directory_iterator._m_prepare (some raws)
        = ⟨false, some rest, entry_of_find_data r⟩ := by
      simp [directory_iterator._m_prepare, hq]
    refine ⟨by rw [hprep], ?_, ?_⟩
    · intro i hi
      rw [hprep,
        advances_live_iff i ⟨false, some rest, entry_of_find_data r⟩ rest rfl rfl]
      omega
    · rw [hprep]
      have hiff :=
        advances_live_iff k ⟨false, some rest, entry_of_find_data r⟩ rest rfl rfl
      have h2 : ¬ (((⟨false, some rest, entry_of_find_data r⟩ :
          directory_iterator).advances k).end_ = false) := by
        rw [hiff]; omega
      cases hcase : ((⟨false, some rest, entry_of_find_data r⟩ :
          directory_iterator).advances k).end_
      · exact absurd hcase h2
      · rfl

theorem advances_reach_end_at_count_witness :
    (directory_iterator._m_prepare
        (some [⟨".", false, 0⟩, ⟨"a", false, 1⟩, ⟨"b", true, 0⟩])).end_ = false ∧
      (∀ i, i < 2 →
        ((directory_iterator._m_prepare
            (some [⟨".", false, 0⟩, ⟨"a", false, 1⟩, ⟨"b", true, 0⟩])).advances i).end_
          = false) ∧
      ((directory_iterator._m_prepare
          (some [⟨".", false, 0⟩, ⟨"a", false, 1⟩, ⟨"b", true, 0⟩])).advances 2).end_
        = true :=
  advances_reach_end_at_count [⟨".", false, 0⟩, ⟨"a", false, 1⟩, ⟨"b", true, 0⟩] 2
    (by decide) (by decide)

/-- Claim C5 (confirmed): the end state is terminal — `_m_read` never assigns
the end flag back to false, so any number of further increments of an ended
iterator leaves it ended — and a live iterator with an open cursor stays live
exactly when the pull loop finds another qualifying entry, moving to end
exactly on an exhausted advance. -/
theorem end_state_terminal :
    (∀ (it : directory_iterator) (n : Nat), it.end_ = true → (it.advances n).end_ = true) ∧
      (∀ (it : directory_iterator) (c : List find_data),
        it.end_ = false → it.handle_ = some c →
        ((directory_iterator._m_read it).end_ = false ↔
          ∃ r rest, read_qualifying c = some (r, rest))) := by
  constructor
  · intro it n h
    exact advances_end_of_end it n h
  · intro it c hl hh
    cases hq : read_qualifying c with
    | none =>
      have heq : directory_iterator._m_read it
          = { it with end_ := true, handle_ := some [] } := by
        simp [directory_iterator._m_read, hh, hq]
      rw [heq]
      simp
    | some pr =>
      obtain ⟨r, rest⟩ := pr
      have heq : directory_iterator._m_read it
          = { it with value_ := entry_of_find_data r, handle_ := some rest } := by
        simp [directory_iterator._m_read, hh, hq]
      rw [heq]
      simp [hl]

theorem end_state_terminal_witness :
    ((directory_iterator.init).advances 3).end_ = true ∧
      ((directory_iterator._m_read
          (directory_iterator._m_prepare (some [⟨"a", false, 1⟩]))).end_ = false ↔
        ∃ r rest, read_qualifying ([] : List find_data) = some (r, rest)) :=
  ⟨end_state_terminal.1 directory_iterator.init 3 rfl,
    end_state_terminal.2 (directory_iterator._m_prepare (some [⟨"a", false, 1⟩])) []
      (by decide) (by decide)⟩

/-- Claim C6 (code bug, evaluated at the failing input): on the name-only
backend the advance-step fallback for a failed metadata query (lines 288-289)
assigns only the name, so the size and directory flag of the previous entry
leak into the produced entry instead of being reset to 0 and false.
Evaluated where the previous entry was a directory of reported size 4096 and
the next raw name is `c`. -/
theorem read_stat_fail_keeps_stale_metadata :
    linux_read_stat_fail ⟨⟨"b"⟩, 4096, true⟩ "c" = ⟨⟨"c"⟩, 4096, true⟩ ∧
      (linux_read_stat_fail ⟨⟨"b"⟩, 4096, true⟩ "c").size ≠ 0 ∧
      (linux_read_stat_fail ⟨⟨"b"⟩, 4096, true⟩ "c").directory = true :=
  ⟨rfl, by decide, rfl⟩

/-- Claim C7 (counterexample to the claim as stated): an enumerated entry
whose target is not a regular file need not have size 0 — the Linux branch
stores `st_size` verbatim, so a directory whose metadata query reports 4096
produces an entry with size 4096. -/
theorem directory_size_not_zero_counterexample :
    (linux_prepare_entry "d" (some ⟨4096, true⟩)).directory = true ∧
      (linux_prepare_entry "d" (some ⟨4096, true⟩)).size = 4096 :=
  ⟨rfl, rfl⟩

/-- Claim C7 (amended): the size stored in a produced entry is the size the
platform reported, whatever the entry type — the Linux branch copies
`st_size` on a successful metadata query (for a regular file this is its byte
length) and stores 0 on a failed one, and the Windows branch copies
`nFileSizeLow` from the find data. -/
theorem entry_size_copies_reported_size :
    (∀ (dname : String) (fst : stat_t),
        (linux_prepare_entry dname (some fst)).size = fst.st_size) ∧
      (∀ dname, (linux_prepare_entry dname none).size = 0) ∧
      (∀ (r : find_data), (entry_of_find_data r).size = r.nFileSizeLow) :=
  ⟨fun _ _ => rfl, fun _ => rfl, fun _ => rfl⟩

/-- Claim C8 (confirmed): for a live iterator, post-increment returns the
state exactly as it was before the call, and leaves the iterator in the state
a single pre-increment produces. -/
theorem postinc_returns_prior_state (it : directory_iterator) (_live : it.end_ = false) :
    (directory_iterator.postinc it).1 = it ∧
      (directory_iterator.postinc it).2 = directory_iterator.preinc it :=
  ⟨rfl, rfl⟩

theorem postinc_returns_prior_state_witness :
    (directory_iterator.postinc
        (directory_iterator._m_prepare (some [⟨"a", false, 10⟩]))).1
      = directory_iterator._m_prepare (some [⟨"a", false, 10⟩]) ∧
      (directory_iterator.postinc
          (directory_iterator._m_prepare (some [⟨"a", false, 10⟩]))).2
        = directory_iterator.preinc (directory_iterator._m_prepare (some [⟨"a", false, 10⟩])) :=
  postinc_returns_prior_state (directory_iterator._m_prepare (some [⟨"a", false, 10⟩]))
    (by decide)

/-- Claim C9 (confirmed): the skip filter accepts the empty name, and a live
iterator never holds an entry whose stored name is the empty string, at
construction or after any number of advances. -/
theorem empty_name_filtered :
    directory_iterator._m_ignore "" = true ∧
      ∀ (openRes : Option (List find_data)) (n : Nat),
        ((directory_iterator._m_prepare openRes).advances n).end_ = false →
        ((directory_iterator._m_prepare openRes).advances n).value_.m_path.text_ ≠ "" := by
  refine ⟨rfl, ?_⟩
  intro openRes n h heq
  have hv := live_value_ok_advances _ (live_value_ok_prepare openRes) n h
  rw [heq] at hv
  exact absurd hv (by decide)

theorem empty_name_filtered_witness :
    ((directory_iterator._m_prepare (some [⟨"a", false, 10⟩])).advances 0).end_ = false ∧
      ((directory_iterator._m_prepare
          (some [⟨"a", false, 10⟩])).advances 0).value_.m_path.text_ ≠ "" :=
  ⟨by decide, empty_name_filtered.2 (some [⟨"a", false, 10⟩]) 0 (by decide)⟩

/-- Claim C10 (confirmed): incrementing the default-constructed
directory_iterator (the end sentinel, which holds a null handle) is a no-op
on the whole state: the end flag, the handle and the current entry are all
unchanged. -/
theorem inc_of_end_sentinel_noop :
    directory_iterator._m_read directory_iterator.init = directory_iterator.init := rfl
